import Mathlib

/-!
Verification of the r8k/crawl web crawler (Go).

The development shallowly embeds the crawler core (`crawler/crawler.go` and
the worker file of package `crawler`) in Lean:

* URLs and the fragment of the Go `net/url` standard library that
  `normaliseURL` relies on (`url.Parse`, `URL.String`, `URL.ResolveReference`,
  `resolvePath`) are modelled over `List Char` strings.
* `Resource`, `Worker`, the admission step `enqueue`, the registration path
  `Crawl`, the child construction performed by `fetch`, the tree-insertion
  entry point `append`, and the quiescence-detector tick are modelled as pure
  state-passing functions.
* The concurrent system is modelled as a small-step transition relation
  `Step` over a global state (`SysState`), with reachability from the empty
  crawler; the quantified invariants are proved by induction on reachability.

Strings are modelled as `List Char` (written `Str`) so that the parsing
functions can be reasoned about by ordinary list induction.
-/

/-- Strings of the embedding: Go strings as lists of characters. -/
abbrev Str := List Char

/-- Convenience conversion from Lean string literals. -/
def str (s : String) : Str := s.data

/-- Model of the URL record of Go `net/url` restricted to the components the
crawler inspects: scheme, host and path.  Query and fragment are folded into
`path` and the `Opaque`/`User` components are not modelled (no claim touches
them); the doc comments below note where this simplifies the library. -/
structure GoURL where
  scheme : Str
  host : Str
  path : Str
deriving DecidableEq, Repr

/-- Characters on which the modelled `url.Parse` fails (Go rejects ASCII
control characters and spaces in URLs). -/
def badChar (c : Char) : Bool := c = ' ' || c.toNat < 32 || c.toNat = 127

/-- Characters admissible inside a scheme, as in Go `getScheme`: the first
character must be a letter, later ones may be letters, digits, `+`, `-`, `.`. -/
def isSchemeChar (first : Bool) (c : Char) : Bool :=
  if first then c.isAlpha else c.isAlpha || c.isDigit || c = '+' || c = '-' || c = '.'

/-- Scanner behind `splitScheme`: walks the string accumulating scheme
characters (in reverse) until a `:` is found.  Returns `none` when the string
has no scheme prefix. -/
def splitSchemeAux : Str → Str → Option (Str × Str)
  | _, [] => none
  | acc, ':' :: rest => if acc = [] then none else some (acc.reverse, rest)
  | acc, c :: rest =>
    if isSchemeChar (acc = []) c then splitSchemeAux (c :: acc) rest else none

/-- Model of the scheme extraction of Go `url.Parse` (`getScheme`). -/
def splitScheme (s : Str) : Option (Str × Str) := splitSchemeAux [] s

/-- Model of Go `url.Parse` for the shapes of URL the crawler meets.
A leading `:` is a parse error, as in Go ("missing protocol scheme"),
as is any control character or space.  `scheme://host/path` splits into the
three components; a scheme without `//` is kept with an empty host and the
remainder as path (Go would store it in `Opaque`; the distinction is
irrelevant to the crawler, which only reads `Scheme`, `Host` and `Path`);
everything else is a relative reference. -/
def parseURL (s : Str) : Option GoURL :=
  if s.any badChar then none
  else if s.head? = some ':' then none
  else
    match splitScheme s with
    | some (scheme, rest) =>
      match rest with
      | '/' :: '/' :: rest2 =>
        some { scheme := scheme
               host := rest2.takeWhile (fun c => c ≠ '/')
               path := rest2.dropWhile (fun c => c ≠ '/') }
      | _ => some { scheme := scheme, host := [], path := rest }
    | none =>
      match s with
      | '/' :: '/' :: rest2 =>
        some { scheme := []
               host := rest2.takeWhile (fun c => c ≠ '/')
               path := rest2.dropWhile (fun c => c ≠ '/') }
      | _ => some { scheme := [], host := [], path := s }

/-- Model of Go `URL.String` for the component combinations the crawler
produces: `scheme://host` followed by the path, the `//` emitted whenever a
scheme or host is present. -/
def urlToString (u : GoURL) : Str :=
  if u.scheme = [] then
    if u.host = [] then u.path
    else '/' :: '/' :: (u.host ++ u.path)
  else u.scheme ++ ':' :: '/' :: '/' :: (u.host ++ u.path)

/-- Splits a string at every `/`, as Go `strings.Split(full, "/")`. -/
def splitSlash : Str → List Str
  | [] => [[]]
  | '/' :: rest => [] :: splitSlash rest
  | c :: rest =>
    match splitSlash rest with
    | s :: ss => (c :: s) :: ss
    | [] => [[c]]

/-- Joins segments with `/`, as Go `strings.Join(dst, "/")`. -/
def joinSlash : List Str → Str
  | [] => []
  | [s] => s
  | s :: rest => s ++ '/' :: joinSlash rest

/-- Dot-segment elimination of Go `resolvePath`: `.` segments are dropped and
`..` pops the last kept segment (when one exists).  The accumulator holds the
kept segments in reverse. -/
def cleanSegs : List Str → List Str → List Str
  | dst, [] => dst.reverse
  | dst, seg :: rest =>
    if seg = ['.'] then cleanSegs dst rest
    else if seg = ['.', '.'] then cleanSegs (dst.drop 1) rest
    else cleanSegs (seg :: dst) rest

/-- The directory part of a path: everything up to and including the last
`/`, as Go `base[:strings.LastIndex(base, "/")+1]`. -/
def dirPart (base : Str) : Str :=
  (base.reverse.dropWhile (fun c => c ≠ '/')).reverse

/-- Model of Go `net/url` `resolvePath`: merge `ref` against `base`, remove
dot segments, re-add a trailing slash after a final `.`/`..`, and anchor the
result at `/`. -/
def resolvePath (base ref : Str) : Str :=
  let full :=
    if ref = [] then base
    else if ref.head? = some '/' then ref
    else dirPart base ++ ref
  if full = [] then []
  else
    let src := splitSlash full
    let dst := cleanSegs [] src
    let dst :=
      if src.getLast? = some ['.'] || src.getLast? = some ['.', '.'] then dst ++ [[]]
      else dst
    '/' :: (joinSlash dst).dropWhile (fun c => c = '/')

/-- Model of Go `URL.ResolveReference` on the modelled components: an
absolute reference (scheme or host present) wins outright with its path
cleaned; otherwise the base scheme and host are kept and the reference path
is resolved against the base path. -/
def resolveReference (base ref : GoURL) : GoURL :=
  let scheme := if ref.scheme = [] then base.scheme else ref.scheme
  if ref.scheme ≠ [] ∨ ref.host ≠ [] then
    { scheme := scheme, host := ref.host, path := resolvePath ref.path [] }
  else
    { scheme := scheme, host := base.host, path := resolvePath base.path ref.path }

/-- The http scheme string. -/
def httpScheme : Str := str "http"

/-- The https scheme string. -/
def httpsScheme : Str := str "https"

/-- Embedding of `normaliseURL` (crawler.go): parse the href, reject a
foreign non-empty host, resolve against the base, and reject any resulting
scheme other than http/https. -/
def normaliseURL (href : Str) (base : GoURL) : Option GoURL :=
  match parseURL href with
  | none => none
  | some uri =>
    if uri.host ≠ [] ∧ uri.host ≠ base.host then none
    else
      let uri := resolveReference base uri
      if uri.scheme ≠ httpScheme ∧ uri.scheme ≠ httpsScheme then none
      else some uri

/-! ## Crawler data model -/

/-- Default maximum crawl depth (crawler.go constant `DefaultMaxCrawlDepth`). -/
def DefaultMaxCrawlDepth : Int := 5

/-- Quiescence window of the per-worker detector, in seconds
(the `delay := 15 * time.Second` of `Crawl`). -/
def quiescenceDelay : Int := 15

/-- Worker status enumeration (worker file of package `crawler`). -/
inductive WorkerStatus where
  | initialised
  | fetchingInProgress
  | fetchingComplete
  | fetchingError
deriving DecidableEq, Repr

/-- The `fmt.Stringer` of `WorkerStatus`. -/
def WorkerStatus.toStr : WorkerStatus → Str
  | .initialised => str "initialised"
  | .fetchingInProgress => str "in-progress"
  | .fetchingComplete => str "complete"
  | .fetchingError => str "error"

/-- Embedding of the `Resource` record (crawler.go).  The child list `Nodes`
is mutated only by the tree-insertion path, which no claim quantifies over;
it is therefore not carried on this record (children are created with an
empty list).  Timestamps are integers (seconds). -/
structure Resource where
  url : Option GoURL
  urlString : Str
  title : Str := []
  httpStatusCode : Int := 0
  root : GoURL
  parent : List Str
  depth : Int
  lastFetched : Int := 0
deriving DecidableEq, Repr

/-- Embedding of the `Worker` record.  The robots group resolved for the user
agent (`agent *robotstxt.Group`) is abstracted by its only used operation,
`agent.Test : path → Bool`.  `registeredAt` is not a Go field: it records the
wall-clock instant the worker (and hence its detector ticker) was created, so
that detector ticks, which in Go happen 15 s or more after creation, can be
constrained in the step relation. -/
structure Worker where
  seed : GoURL
  crawlDepth : Int
  agent : Str → Bool
  tracker : List Str
  status : WorkerStatus
  tree : Option Resource := none
  lastUpdated : Int := 0
  registeredAt : Int := 0

/-- Association-list lookup for the worker registry `map[string]*Worker`. -/
def lookupWorker : List (Str × Worker) → Str → Option Worker
  | [], _ => none
  | (k, w) :: rest, q => if k = q then some w else lookupWorker rest q

/-- Association-list in-place update, modelling mutation of the worker that a
Go map lookup returned a pointer to. -/
def updateWorker : List (Str × Worker) → Str → Worker → List (Str × Worker)
  | [], _, _ => []
  | (k, w) :: rest, q, w2 =>
    if k = q then (k, w2) :: rest else (k, w) :: updateWorker rest q w2

/-- Embedding of `Worker.visited`: atomically (under the per-worker mutex)
check whether a URL string was seen, inserting it when it was not.  Returns
the old membership together with the updated worker. -/
def Worker.visited (w : Worker) (uri : Str) : Bool × Worker :=
  if uri ∈ w.tracker then (true, w)
  else (false, { w with tracker := uri :: w.tracker })

/-- Outcome of the admission step, one constructor per exit of `enqueue`. -/
inductive EnqueueResult where
  | droppedQueueClosed
  | droppedNilURL
  | droppedNoWorker
  | droppedVisited
  | droppedDepth
  | droppedRobots
  | admitted
deriving DecidableEq, Repr

/-- Embedding of `Crawler.enqueue` (crawler.go): the gate sequence run by the
dispatch loop on each dequeued resource, in source order: closed queue, nil
URL, unknown worker, tracker check-and-insert, depth bound, robots policy.
Returns the outcome together with the updated registry.  The
`http.NewRequest` construction step is not modelled: it cannot fail for a URL
string obtained from an already parsed URL, and no claim mentions it. -/
def enqueue (closed : Bool) (ws : List (Str × Worker)) (r : Resource) :
    EnqueueResult × List (Str × Worker) :=
  if closed then (.droppedQueueClosed, ws)
  else
    match r.url with
    | none => (.droppedNilURL, ws)
    | some u =>
      match lookupWorker ws (urlToString r.root) with
      | none => (.droppedNoWorker, ws)
      | some w =>
        let vc := w.visited (urlToString u)
        let ws2 := updateWorker ws (urlToString r.root) vc.2
        if vc.1 then (.droppedVisited, ws2)
        else if w.crawlDepth < r.depth then (.droppedDepth, ws2)
        else if w.agent u.path = false then (.droppedRobots, ws2)
        else (.admitted, ws2)

/-- Embedding of one tick of the quiescence detector goroutine started by
`Crawl`: the worker status is set to complete exactly when
`LastUpdated.Add(delay).After(now)` holds, i.e. when `now < lastUpdated + 15`. -/
def detectorTick (w : Worker) (now : Int) : Worker :=
  if now < w.lastUpdated + quiescenceDelay then { w with status := .fetchingComplete }
  else w

/-- Embedding of `Crawler.append` restricted to the fields claims quantify
over: the first insertion installs the resource as the tree root (and does
not touch `LastUpdated`); every later insertion stamps `LastUpdated` with the
current time and places the node in the tree (the `addNode` placement inside
the existing tree is not tracked on the worker record). -/
def appendToTree (w : Worker) (r : Resource) (now : Int) : Worker :=
  match w.tree with
  | none => { w with tree := some r }
  | some _ => { w with lastUpdated := now }

/-- Embedding of the status flip at the start of a successful fetch:
`if worker.status != StatusFetchingInProgress` then set it. -/
def markInProgress (w : Worker) : Worker :=
  if w.status ≠ .fetchingInProgress then { w with status := .fetchingInProgress } else w

/-- Embedding of the child resource constructed by `Crawler.fetch` for every
link of the parent page that `normaliseURL` accepted: same root, ancestry
extended by the parent URL string, depth one more than the parent. -/
def makeChild (p : Resource) (pu absolute : GoURL) (now : Int) : Resource :=
  { url := some absolute
    root := p.root
    urlString := urlToString absolute
    parent := p.parent ++ [urlToString pu]
    depth := p.depth + 1
    lastFetched := now }

/-- Errors returned by `Crawl`. -/
inductive CrawlError where
  | parseError
  | domainAlreadyRegistered
  | transportError (e : Str)
  | robotsParseError (e : Str)
deriving DecidableEq, Repr

/-- Oracle for the robots.txt retrieval performed by `Crawl`: the transport
outcome of the GET, the outcome of `robotstxt.FromResponse`, and the group
`FindGroup` resolves for the configured user agent (its `Test` predicate). -/
structure RobotsOracle where
  fetchErr : Option Str := none
  parseErr : Option Str := none
  group : Option (Str → Bool) := none

/-- Observable side effects of one `Crawl` call, used to state ordering
claims: whether the robots.txt request was issued, whether the detector
goroutine was started, and the seed resource pushed to the queue, if any. -/
structure CrawlEffects where
  robotsFetched : Bool := false
  detectorStarted : Bool := false
  seedEnqueued : Option Resource := none

/-- Global crawler state: the worker registry, the pending work queue, the
resources admitted to fetch (each with the registry key of its worker), the
queue-closed flag and the wall clock. -/
structure SysState where
  workers : List (Str × Worker)
  queue : List Resource
  admitted : List (Str × Resource)
  queueClosed : Bool
  time : Int

/-- Embedding of `Crawler.Crawl` (crawler.go), in source order: parse the raw
URL; refuse an already registered key; fetch and parse robots.txt; resolve
the agent group, returning the last error observed (necessarily nil there)
when none matches; substitute the default depth for 0; register the worker;
start the detector; push the depth-1 seed. -/
def Crawl (st : SysState) (rawurl : Str) (depth : Int) (oracle : RobotsOracle) :
    Option CrawlError × SysState × CrawlEffects :=
  match parseURL rawurl with
  | none => (some .parseError, st, {})
  | some u =>
    match lookupWorker st.workers (urlToString u) with
    | some _ => (some .domainAlreadyRegistered, st, {})
    | none =>
      match oracle.fetchErr with
      | some e => (some (.transportError e), st, { robotsFetched := true })
      | none =>
        match oracle.parseErr with
        | some e => (some (.robotsParseError e), st, { robotsFetched := true })
        | none =>
          match oracle.group with
          | none => (none, st, { robotsFetched := true })
          | some g =>
            let d := if depth = 0 then DefaultMaxCrawlDepth else depth
            let w : Worker :=
              { seed := u, crawlDepth := d, agent := g, tracker := []
                status := .initialised, tree := none, lastUpdated := 0
                registeredAt := st.time }
            let seed : Resource :=
              { url := some u, urlString := urlToString u, root := u
                parent := [], depth := 1 }
            (none,
             { st with
                workers := (urlToString u, w) :: st.workers
                queue := st.queue ++ [seed] },
             { robotsFetched := true, detectorStarted := true, seedEnqueued := some seed })

/-- One iteration of the dispatch loop on the head of the queue: run the
admission gates; when they all pass, record the resource as admitted to fetch
(the Go code increments the wait group and spawns the fetch goroutine). -/
def dispatchStep (st : SysState) (r : Resource) (rest : List Resource) : SysState :=
  let out := enqueue st.queueClosed st.workers r
  let st2 := { st with queue := rest, workers := out.2 }
  if out.1 = .admitted then
    { st2 with admitted := (urlToString r.root, r) :: st2.admitted }
  else st2

/-- Small-step semantics of the crawler.  Each constructor is one atomic
action of the Go program: a `Crawl` call, one dispatch-loop iteration, the
child-producing tail of a fetch, the asynchronous tree insertion, the status
flip of a running fetch, one detector tick (which, being driven by a ticker
created at registration, can only happen a full window after registration),
passage of time, and queue closure. -/
inductive Step : SysState → SysState → Prop where
  | crawl (st : SysState) (rawurl : Str) (depth : Int) (oracle : RobotsOracle) :
      Step st (Crawl st rawurl depth oracle).2.1
  | dispatch (st : SysState) (r : Resource) (rest : List Resource) :
      st.queue = r :: rest → Step st (dispatchStep st r rest)
  | fetchChild (st : SysState) (k : Str) (p : Resource) (pu absolute : GoURL) (link : Str) :
      (k, p) ∈ st.admitted → p.url = some pu → normaliseURL link pu = some absolute →
      st.queueClosed = false →
      Step st { st with queue := st.queue ++ [makeChild p pu absolute st.time] }
  | insert (st : SysState) (k : Str) (p : Resource) (w : Worker) :
      (k, p) ∈ st.admitted → lookupWorker st.workers k = some w →
      Step st { st with workers := updateWorker st.workers k (appendToTree w p st.time) }
  | mark (st : SysState) (k : Str) (p : Resource) (w : Worker) :
      (k, p) ∈ st.admitted → lookupWorker st.workers k = some w →
      Step st { st with workers := updateWorker st.workers k (markInProgress w) }
  | detector (st : SysState) (k : Str) (w : Worker) :
      lookupWorker st.workers k = some w → w.registeredAt + quiescenceDelay ≤ st.time →
      Step st { st with workers := updateWorker st.workers k (detectorTick w st.time) }
  | tick (st : SysState) (d : Int) : 0 ≤ d → Step st { st with time := st.time + d }
  | close (st : SysState) : Step st { st with queueClosed := true }

/-- The crawler as created by `New`: no workers, empty queue, open, clock 0. -/
def initState : SysState :=
  { workers := [], queue := [], admitted := [], queueClosed := false, time := 0 }

/-- States the crawler can reach from a fresh `New`. -/
def Reachable (st : SysState) : Prop := Relation.ReflTransGen Step initState st

/-! ## Concrete instances used by witnesses -/

/-- A robots group allowing every path. -/
def agentAll : Str → Bool := fun _ => true

/-- An oracle for a domain whose robots.txt downloads, parses, and matches
the user agent with the allow-everything group. -/
def oracleOK : RobotsOracle := { group := some agentAll }

/-- The example seed URL, the parse of `"http://e.com"`. -/
def exSeedURL : GoURL := ⟨str "http", str "e.com", []⟩

/-- The raw seed string posted to the crawler in the examples. -/
def exRaw : Str := str "http://e.com"

/-- The registry key of the example worker. -/
def exKey : Str := urlToString exSeedURL

/-- State after `Crawl exRaw 3` on a fresh crawler. -/
def st1 : SysState := (Crawl initState exRaw 3 oracleOK).2.1

/-- The seed resource `Crawl` pushes for the example domain. -/
def exSeed : Resource :=
  { url := some exSeedURL, urlString := exKey, root := exSeedURL, parent := [], depth := 1 }

/-- State after the dispatch loop admits the seed. -/
def st2 : SysState := dispatchStep st1 exSeed []

/-- A child URL discovered on the seed page. -/
def exChildURL : GoURL := ⟨str "http", str "e.com", str "/a"⟩

/-- State after the seed fetch enqueues the child `/a`. -/
def st3 : SysState :=
  { st2 with queue := st2.queue ++ [makeChild exSeed exSeedURL exChildURL st2.time] }

/-- The child resource built by the fetch of the seed. -/
def exChild : Resource := makeChild exSeed exSeedURL exChildURL 0

/-- State after the dispatch loop admits the child. -/
def st4 : SysState := dispatchStep st3 exChild []

/-- State after registering the example domain with a negative depth. -/
def st5 : SysState := (Crawl initState exRaw (-1) oracleOK).2.1

/-- An in-progress worker whose tree was last updated at time 10. -/
def exWorkerActive : Worker :=
  { seed := exSeedURL, crawlDepth := 3, agent := agentAll, tracker := [exKey]
    status := .fetchingInProgress, tree := some exSeed, lastUpdated := 10
    registeredAt := 0 }

/-- The worker `Crawl exRaw 3` registers on a fresh crawler. -/
def exWorker1 : Worker :=
  { seed := exSeedURL, crawlDepth := 3, agent := agentAll, tracker := []
    status := .initialised, tree := none, lastUpdated := 0, registeredAt := 0 }

/-- exWorker1 after the seed was admitted (its URL string tracked). -/
def exWorker2 : Worker := { exWorker1 with tracker := [exKey] }

/-- The worker registered by `Crawl exRaw (-1)`: a negative crawl depth. -/
def exWorkerNeg : Worker :=
  { seed := exSeedURL, crawlDepth := -1, agent := agentAll, tracker := []
    status := .initialised, tree := none, lastUpdated := 0, registeredAt := 0 }

/-- A robots group rejecting every path. -/
def agentNone : Str → Bool := fun _ => false

/-- A registered worker whose robots policy disallows everything. -/
def exWorkerDeny : Worker :=
  { seed := exSeedURL, crawlDepth := 3, agent := agentNone, tracker := []
    status := .initialised }

/-- A registry holding only the deny-everything worker. -/
def denyWs : List (Str × Worker) := [(exKey, exWorkerDeny)]

/-- An oracle for a domain whose robots.txt downloads and parses but matches
no group for the configured user agent. -/
def oracleNoGroup : RobotsOracle := {}

/-- Embedding of `HasContentType` (api package): the outcome of
`mime.ParseMediaType` on the Content-type header is taken as input (an error
or the parsed media type); a parse error propagates, otherwise the media
type is compared against the wanted one. -/
def HasContentType (ctParse : Except Str Str) (mimetype : Str) : Except Str Bool :=
  match ctParse with
  | .error e => .error e
  | .ok t => .ok (decide (t = mimetype))

/-- Embedding of `CreateDomainHandler` (api package): answer 415 when the
Content-type header fails to parse or is not `application/json`; 400 when
the JSON body fails to decode; 400 when `Crawl` returns an error; otherwise
202 Accepted.  The echo request is abstracted by the `mime.ParseMediaType`
outcome on its Content-type header and by the `ctx.Bind` outcome (an error,
or the decoded domain string and depth); the function returns the response
status code and the crawler state after the embedded `Crawl` call. -/
def CreateDomainHandler (st : SysState) (ctParse : Except Str Str)
    (bind : Except Str (Str × Int)) (oracle : RobotsOracle) : Nat × SysState :=
  match HasContentType ctParse (str "application/json") with
  | .error _ => (415, st)
  | .ok isJSON =>
    if isJSON = false then (415, st)
    else
      match bind with
      | .error _ => (400, st)
      | .ok (domain, depth) =>
        let out := Crawl st domain depth oracle
        match out.1 with
        | some _ => (400, out.2.1)
        | none => (202, out.2.1)

/-! ## Properties of the URL test of the repository -/

-- The unit test of the repository (crawler package test, TestNormaliseURL):
-- normalising "/resource" against http://example.com/sub yields
-- http://example.com/resource.
example :
    normaliseURL (str "/resource") ⟨str "http", str "example.com", str "/sub"⟩ =
      some ⟨str "http", str "example.com", str "/resource"⟩ := by decide

-- A mailto link is rejected by the scheme gate.
example :
    normaliseURL (str "mailto:a@b.c") ⟨str "http", str "example.com", str "/"⟩ = none := by
  decide

-- A cross-host absolute link is rejected by the host gate.
example :
    normaliseURL (str "http://other.com/x") ⟨str "http", str "example.com", str "/"⟩ =
      none := by decide

-- Round trip on a concrete base URL.
example :
    normaliseURL (urlToString ⟨str "http", str "example.com", str "/sub"⟩)
      ⟨str "http", str "example.com", str "/sub"⟩ =
      some ⟨str "http", str "example.com", str "/sub"⟩ := by decide

/-! ## Registry helper lemmas -/

theorem lookup_update_cases (ws : List (Str × Worker)) (q k : Str) (w2 : Worker) :
    lookupWorker (updateWorker ws q w2) k =
      if q = k ∧ (lookupWorker ws q).isSome then some w2 else lookupWorker ws k := by
  induction ws with
  | nil => simp [updateWorker, lookupWorker]
  | cons hd tl ih =>
    obtain ⟨k0, w0⟩ := hd
    by_cases h1 : k0 = q
    · subst h1
      by_cases h2 : k0 = k
      · subst h2
        simp [updateWorker, lookupWorker]
      · simp [updateWorker, lookupWorker, h2]
    · by_cases h2 : k0 = k
      · subst h2
        have hqk : ¬ q = k0 := fun h => h1 h.symm
        simp [updateWorker, lookupWorker, h1, hqk]
      · simp [updateWorker, lookupWorker, h1, h2, ih]

theorem update_self_id (ws : List (Str × Worker)) (q : Str) (w : Worker)
    (h : lookupWorker ws q = some w) : updateWorker ws q w = ws := by
  induction ws with
  | nil => rfl
  | cons hd tl ih =>
    obtain ⟨k0, w0⟩ := hd
    by_cases h1 : k0 = q
    · subst h1
      simp [lookupWorker] at h
      simp [updateWorker, h]
    · simp [lookupWorker, h1] at h
      simp [updateWorker, h1, ih h]

/-! ## Admission-step characterisations -/

theorem enqueue_workers_cases (c : Bool) (ws : List (Str × Worker)) (r : Resource) :
    (enqueue c ws r).2 = ws ∨
    ∃ u w, r.url = some u ∧ lookupWorker ws (urlToString r.root) = some w ∧
      urlToString u ∉ w.tracker ∧
      (enqueue c ws r).2 =
        updateWorker ws (urlToString r.root) { w with tracker := urlToString u :: w.tracker } := by
  by_cases hc : c
  · left; simp [enqueue, hc]
  · cases hu : r.url with
    | none => left; simp [enqueue, hc, hu]
    | some u =>
      cases hl : lookupWorker ws (urlToString r.root) with
      | none => left; simp [enqueue, hc, hu, hl]
      | some w =>
        by_cases hv : urlToString u ∈ w.tracker
        · left
          have hid : updateWorker ws (urlToString r.root) w = ws := update_self_id _ _ _ hl
          simp [enqueue, hc, hu, hl, Worker.visited, hv, hid]
        · right
          refine ⟨u, w, rfl, rfl, hv, ?_⟩
          simp only [enqueue, hc, hu, hl, Worker.visited, hv]
          by_cases hd : w.crawlDepth < r.depth
          · simp [hd]
          · by_cases ha : w.agent u.path = false
            · simp [hd, ha]
            · simp [hd, ha]

theorem enqueue_worker_view (c : Bool) (ws : List (Str × Worker)) (r : Resource)
    (k : Str) (w : Worker) (h : lookupWorker ws k = some w) :
    ∃ w2, lookupWorker (enqueue c ws r).2 k = some w2 ∧
      w.tracker ⊆ w2.tracker ∧ w2.crawlDepth = w.crawlDepth ∧ w2.status = w.status ∧
      w2.tree = w.tree ∧ w2.lastUpdated = w.lastUpdated ∧
      w2.registeredAt = w.registeredAt ∧ w2.agent = w.agent := by
  rcases enqueue_workers_cases c ws r with heq | ⟨u, w0, hu, hl, hv, heq⟩
  · exact ⟨w, by rw [heq, h], List.Subset.refl _, rfl, rfl, rfl, rfl, rfl, rfl⟩
  · rw [heq, lookup_update_cases]
    by_cases hk : urlToString r.root = k
    · subst hk
      have hw0 : w0 = w := by rw [hl] at h; exact Option.some.inj h
      subst hw0
      simp only [hl, Option.isSome_some, and_true, if_pos rfl]
      exact ⟨_, rfl, List.subset_cons_self _ _, rfl, rfl, rfl, rfl, rfl, rfl⟩
    · have hcond : ¬ (urlToString r.root = k ∧
          (lookupWorker ws (urlToString r.root)).isSome) := fun h2 => hk h2.1
      simp only [if_neg hcond]
      exact ⟨w, h, List.Subset.refl _, rfl, rfl, rfl, rfl, rfl, rfl⟩

theorem enqueue_worker_none (c : Bool) (ws : List (Str × Worker)) (r : Resource)
    (k : Str) (h : lookupWorker ws k = none) :
    lookupWorker (enqueue c ws r).2 k = none := by
  rcases enqueue_workers_cases c ws r with heq | ⟨u, w0, hu, hl, hv, heq⟩
  · rw [heq, h]
  · rw [heq, lookup_update_cases]
    by_cases hk : urlToString r.root = k
    · subst hk; rw [hl] at h; cases h
    · have hcond : ¬ (urlToString r.root = k ∧
          (lookupWorker ws (urlToString r.root)).isSome) := fun h2 => hk h2.1
      simp only [if_neg hcond]; exact h

theorem dispatch_workers (st : SysState) (r : Resource) (rest : List Resource) :
    (dispatchStep st r rest).workers = (enqueue st.queueClosed st.workers r).2 := by
  unfold dispatchStep
  by_cases h : (enqueue st.queueClosed st.workers r).1 = EnqueueResult.admitted <;> simp [h]

theorem dispatch_queue (st : SysState) (r : Resource) (rest : List Resource) :
    (dispatchStep st r rest).queue = rest := by
  unfold dispatchStep
  by_cases h : (enqueue st.queueClosed st.workers r).1 = EnqueueResult.admitted <;> simp [h]

theorem dispatch_admitted (st : SysState) (r : Resource) (rest : List Resource) :
    (dispatchStep st r rest).admitted =
      if (enqueue st.queueClosed st.workers r).1 = EnqueueResult.admitted then
        (urlToString r.root, r) :: st.admitted
      else st.admitted := by
  unfold dispatchStep
  by_cases h : (enqueue st.queueClosed st.workers r).1 = EnqueueResult.admitted <;> simp [h]

theorem dispatch_time (st : SysState) (r : Resource) (rest : List Resource) :
    (dispatchStep st r rest).time = st.time := by
  unfold dispatchStep
  by_cases h : (enqueue st.queueClosed st.workers r).1 = EnqueueResult.admitted <;> simp [h]

theorem dispatch_closed (st : SysState) (r : Resource) (rest : List Resource) :
    (dispatchStep st r rest).queueClosed = st.queueClosed := by
  unfold dispatchStep
  by_cases h : (enqueue st.queueClosed st.workers r).1 = EnqueueResult.admitted <;> simp [h]

/-! ## Registration-path characterisation -/

theorem Crawl_state_cases (st : SysState) (rawurl : Str) (depth : Int)
    (oracle : RobotsOracle) :
    (Crawl st rawurl depth oracle).2.1 = st ∨
    ∃ u g, parseURL rawurl = some u ∧
      lookupWorker st.workers (urlToString u) = none ∧ oracle.group = some g ∧
      (Crawl st rawurl depth oracle).2.1 =
        { st with
            workers := (urlToString u,
              { seed := u, crawlDepth := if depth = 0 then DefaultMaxCrawlDepth else depth
                agent := g, tracker := [], status := .initialised, tree := none
                lastUpdated := 0, registeredAt := st.time }) :: st.workers
            queue := st.queue ++
              [{ url := some u, urlString := urlToString u, root := u
                 parent := [], depth := 1 }] } := by
  cases hp : parseURL rawurl with
  | none => left; simp [Crawl, hp]
  | some u =>
    cases hl : lookupWorker st.workers (urlToString u) with
    | some w => left; simp [Crawl, hp, hl]
    | none =>
      cases hf : oracle.fetchErr with
      | some e => left; simp [Crawl, hp, hl, hf]
      | none =>
        cases hpe : oracle.parseErr with
        | some e => left; simp [Crawl, hp, hl, hf, hpe]
        | none =>
          cases hg : oracle.group with
          | none => left; simp [Crawl, hp, hl, hf, hpe, hg]
          | some g =>
            right
            refine ⟨u, g, rfl, hl, rfl, ?_⟩
            simp [Crawl, hp, hl, hf, hpe, hg]

/-! ## Worker-mutation field lemmas -/

theorem appendToTree_fields (w : Worker) (r : Resource) (t : Int) :
    (appendToTree w r t).tracker = w.tracker ∧
    (appendToTree w r t).crawlDepth = w.crawlDepth ∧
    (appendToTree w r t).status = w.status ∧
    (appendToTree w r t).registeredAt = w.registeredAt := by
  cases htree : w.tree <;> simp [appendToTree, htree]

theorem markInProgress_fields (w : Worker) :
    (markInProgress w).tracker = w.tracker ∧
    (markInProgress w).crawlDepth = w.crawlDepth ∧
    (markInProgress w).tree = w.tree ∧
    (markInProgress w).lastUpdated = w.lastUpdated ∧
    (markInProgress w).registeredAt = w.registeredAt := by
  by_cases h : w.status ≠ WorkerStatus.fetchingInProgress <;> simp [markInProgress, h]

theorem detectorTick_fields (w : Worker) (now : Int) :
    (detectorTick w now).tracker = w.tracker ∧
    (detectorTick w now).crawlDepth = w.crawlDepth ∧
    (detectorTick w now).tree = w.tree ∧
    (detectorTick w now).lastUpdated = w.lastUpdated ∧
    (detectorTick w now).registeredAt = w.registeredAt := by
  by_cases h : now < w.lastUpdated + quiescenceDelay <;> simp [detectorTick, h]

theorem lookup_update_mono (ws : List (Str × Worker)) (k0 k : Str) (w0 w2 w : Worker)
    (hl : lookupWorker ws k0 = some w0) (h : lookupWorker ws k = some w)
    (htr : w2.tracker = w0.tracker) :
    ∃ w3, lookupWorker (updateWorker ws k0 w2) k = some w3 ∧ w.tracker ⊆ w3.tracker := by
  rw [lookup_update_cases]
  by_cases hk : k0 = k
  · subst hk
    rw [hl] at h
    obtain rfl : w0 = w := Option.some.inj h
    refine ⟨w2, ?_, by rw [htr]; exact List.Subset.refl _⟩
    simp [hl]
  · have hcond : ¬ (k0 = k ∧ (lookupWorker ws k0).isSome) := fun h2 => hk h2.1
    rw [if_neg hcond]
    exact ⟨w, h, List.Subset.refl _⟩

/-- Along any step, a registered worker stays registered and its tracker only
grows (URL strings are never removed from the visited set). -/
theorem step_tracker_mono {st st2 : SysState} (hs : Step st st2) (k : Str) (w : Worker)
    (h : lookupWorker st.workers k = some w) :
    ∃ w2, lookupWorker st2.workers k = some w2 ∧ w.tracker ⊆ w2.tracker := by
  cases hs with
  | crawl rawurl depth oracle =>
    rcases Crawl_state_cases st rawurl depth oracle with heq | ⟨u, g, hp, hl, hg, heq⟩
    · rw [heq]; exact ⟨w, h, List.Subset.refl _⟩
    · rw [heq]
      by_cases hk : urlToString u = k
      · subst hk; rw [hl] at h; cases h
      · refine ⟨w, ?_, List.Subset.refl _⟩
        simpa [lookupWorker, hk] using h
  | dispatch r rest hq =>
    rw [dispatch_workers]
    obtain ⟨w2, hw2, hsub, -⟩ := enqueue_worker_view st.queueClosed st.workers r k w h
    exact ⟨w2, hw2, hsub⟩
  | fetchChild k0 p pu absolute link hmem hpu hnorm hcl =>
    exact ⟨w, h, List.Subset.refl _⟩
  | insert k0 p w0 hmem hlk =>
    exact lookup_update_mono st.workers k0 k w0 _ w hlk h (appendToTree_fields w0 p st.time).1
  | mark k0 p w0 hmem hlk =>
    exact lookup_update_mono st.workers k0 k w0 _ w hlk h (markInProgress_fields w0).1
  | detector k0 w0 hlk htime =>
    exact lookup_update_mono st.workers k0 k w0 _ w hlk h (detectorTick_fields w0 st.time).1
  | tick d hd => exact ⟨w, h, List.Subset.refl _⟩
  | close => exact ⟨w, h, List.Subset.refl _⟩

/-! ## Claim theorems -/

/-- C1: counter-evidence for the quiescence claim.  At a tick at time 20 of a
worker whose tree was last updated at time 10 (an update within the preceding
15-second window) the detector sets the status to complete, while at a tick
at time 100 of a worker idle since time 0 (idle window long elapsed) it
leaves the status in-progress: the code fires exactly when
`LastUpdated + 15s` is still after `now`, which is the negation of the
claimed idle-window condition (the comment inside the ticker loop of `Crawl`
states the claimed condition, so the code contradicts its own comment). -/
theorem detector_completes_during_recent_activity :
    (detectorTick exWorkerActive 20).status = WorkerStatus.fetchingComplete ∧
    20 - exWorkerActive.lastUpdated < quiescenceDelay ∧
    (detectorTick { exWorkerActive with lastUpdated := 0 } 100).status =
      WorkerStatus.fetchingInProgress ∧
    quiescenceDelay ≤ 100 - ({ exWorkerActive with lastUpdated := 0 } : Worker).lastUpdated := by
  exact ⟨by decide, by decide, by decide, by decide⟩

/-- C4: `normaliseURL` returns null exactly when the href fails to parse,
when its parsed host is non-empty and differs from the base host, or when
the scheme of the href resolved against the base is neither http nor https;
in the remaining cases it returns the href resolved against the base. -/
theorem normaliseURL_null_cases :
    (∀ href base, parseURL href = none → normaliseURL href base = none) ∧
    (∀ href base u, parseURL href = some u → u.host ≠ [] → u.host ≠ base.host →
      normaliseURL href base = none) ∧
    (∀ href base u, parseURL href = some u → (u.host = [] ∨ u.host = base.host) →
      normaliseURL href base =
        (if (resolveReference base u).scheme ≠ httpScheme ∧
            (resolveReference base u).scheme ≠ httpsScheme then none
         else some (resolveReference base u))) := by
  refine ⟨?_, ?_, ?_⟩
  · intro href base h
    simp [normaliseURL, h]
  · intro href base u h h1 h2
    simp [normaliseURL, h, h1, h2]
  · intro href base u h hh
    have hcond : ¬ (u.host ≠ [] ∧ u.host ≠ base.host) := by
      rcases hh with h2 | h2 <;> simp [h2]
    simp only [normaliseURL, h, if_neg hcond]

/-- Witness for C4: a href with a space fails to parse; a href on a foreign
host is dropped; a same-host relative href is returned resolved. -/
theorem normaliseURL_null_cases_witness :
    normaliseURL (str "a b") ⟨str "http", str "e.com", str "/"⟩ = none ∧
    normaliseURL (str "http://x.com/p") ⟨str "http", str "e.com", str "/"⟩ = none ∧
    normaliseURL (str "/a") ⟨str "http", str "e.com", str "/"⟩ =
      (if (resolveReference ⟨str "http", str "e.com", str "/"⟩ ⟨[], [], str "/a"⟩).scheme ≠
            httpScheme ∧
          (resolveReference ⟨str "http", str "e.com", str "/"⟩ ⟨[], [], str "/a"⟩).scheme ≠
            httpsScheme then none
       else some (resolveReference ⟨str "http", str "e.com", str "/"⟩ ⟨[], [], str "/a"⟩)) := by
  refine ⟨normaliseURL_null_cases.1 _ _ (by decide),
          normaliseURL_null_cases.2.1 _ _ ⟨str "http", str "x.com", str "/p"⟩
            (by decide) (by decide) (by decide),
          normaliseURL_null_cases.2.2 _ _ ⟨[], [], str "/a"⟩ (by decide) (Or.inl rfl)⟩

/-- C8: each child built by `fetch` keeps the parent root, extends the
parent ancestry by the parent URL string, and has depth one more than the
parent (the hypothesis ties the `URLString` field to the URL, which holds
for every queued resource). -/
theorem makeChild_shape (p : Resource) (pu absolute : GoURL) (now : Int)
    (_hurl : p.url = some pu) (hstr : p.urlString = urlToString pu) :
    (makeChild p pu absolute now).root = p.root ∧
    (makeChild p pu absolute now).parent = p.parent ++ [p.urlString] ∧
    (makeChild p pu absolute now).depth = p.depth + 1 := by
  refine ⟨rfl, ?_, rfl⟩
  simp [makeChild, hstr]

/-- Witness for C8 on the concrete seed and its child `/a`. -/
theorem makeChild_shape_witness :
    exChild.root = exSeed.root ∧
    exChild.parent = exSeed.parent ++ [exSeed.urlString] ∧
    exChild.depth = exSeed.depth + 1 :=
  makeChild_shape exSeed exSeedURL exChildURL 0 rfl rfl

/-- C5: in `enqueue` the robots gate runs strictly after the tracker
check-and-insert: a robots-rejected resource leaves its URL string recorded
in its worker tracker; trackers only grow along steps; and any admission
attempt whose URL string is already tracked is dropped at the tracker check
(outcome droppedVisited, before the robots gate and its log line). -/
theorem robots_gate_after_tracker :
    (∀ closed ws r, (enqueue closed ws r).1 = EnqueueResult.droppedRobots →
      ∃ u w2, r.url = some u ∧
        lookupWorker (enqueue closed ws r).2 (urlToString r.root) = some w2 ∧
        urlToString u ∈ w2.tracker) ∧
    (∀ st st2, Step st st2 → ∀ k w, lookupWorker st.workers k = some w →
      ∃ w2, lookupWorker st2.workers k = some w2 ∧ w.tracker ⊆ w2.tracker) ∧
    (∀ ws r u w, r.url = some u →
      lookupWorker ws (urlToString r.root) = some w → urlToString u ∈ w.tracker →
      (enqueue false ws r).1 = EnqueueResult.droppedVisited) := by
  refine ⟨?_, fun st st2 hs k w h => step_tracker_mono hs k w h, ?_⟩
  · intro closed ws r hres
    by_cases hc : closed
    · simp [enqueue, hc] at hres
    · cases hu : r.url with
      | none => simp [enqueue, hc, hu] at hres
      | some u =>
        cases hl : lookupWorker ws (urlToString r.root) with
        | none => simp [enqueue, hc, hu, hl] at hres
        | some w =>
          by_cases hv : urlToString u ∈ w.tracker
          · simp [enqueue, hc, hu, hl, Worker.visited, hv] at hres
          · have h2 : (enqueue closed ws r).2 =
                updateWorker ws (urlToString r.root)
                  { w with tracker := urlToString u :: w.tracker } := by
              simp only [enqueue, hc, hu, hl, Worker.visited, hv]
              by_cases hd : w.crawlDepth < r.depth
              · simp [hd]
              · by_cases ha : w.agent u.path = false
                · simp [hd, ha]
                · simp [hd, ha]
            refine ⟨u, { w with tracker := urlToString u :: w.tracker }, rfl, ?_,
              List.mem_cons_self _ _⟩
            rw [h2, lookup_update_cases]
            simp [hl]
  · intro ws r u w hu hl hv
    simp [enqueue, hu, hl, Worker.visited, hv]

/-- Witness for C5: the deny-everything worker records the seed URL while
rejecting it; the tracker grows across the admission step of the seed; a
second admission attempt for the seed URL string is dropped at the tracker
check. -/
theorem robots_gate_after_tracker_witness :
    (∃ u w2, exSeed.url = some u ∧
      lookupWorker (enqueue false denyWs exSeed).2 (urlToString exSeed.root) = some w2 ∧
      urlToString u ∈ w2.tracker) ∧
    (∃ w2, lookupWorker st2.workers exKey = some w2 ∧ exWorker1.tracker ⊆ w2.tracker) ∧
    (enqueue false st2.workers exSeed).1 = EnqueueResult.droppedVisited := by
  refine ⟨robots_gate_after_tracker.1 false denyWs exSeed (by decide),
          robots_gate_after_tracker.2.1 st1 st2
            (Step.dispatch st1 exSeed [] (by decide)) exKey exWorker1 rfl,
          robots_gate_after_tracker.2.2 st2.workers exSeed exSeedURL exWorker2
            rfl rfl (by decide)⟩

/-- C6: calling `Crawl` for an already registered key fails with
DomainAlreadyRegistered with no robots.txt fetch and the state unchanged;
at the HTTP boundary (`CreateDomainHandler`), posting the same well-formed
application/json domain twice answers 202 Accepted and then 400. -/
theorem crawl_duplicate_registration :
    (∀ st rawurl depth oracle u w, parseURL rawurl = some u →
      lookupWorker st.workers (urlToString u) = some w →
      Crawl st rawurl depth oracle = (some CrawlError.domainAlreadyRegistered, st, {})) ∧
    (∀ st rawurl depth oracle u g, parseURL rawurl = some u →
      lookupWorker st.workers (urlToString u) = none →
      oracle.fetchErr = none → oracle.parseErr = none → oracle.group = some g →
      (CreateDomainHandler st (Except.ok (str "application/json"))
        (Except.ok (rawurl, depth)) oracle).1 = 202 ∧
      ∀ depth2 oracle2,
        (CreateDomainHandler
          (CreateDomainHandler st (Except.ok (str "application/json"))
            (Except.ok (rawurl, depth)) oracle).2
          (Except.ok (str "application/json"))
          (Except.ok (rawurl, depth2)) oracle2).1 = 400) := by
  constructor
  · intro st rawurl depth oracle u w hp hl
    simp [Crawl, hp, hl]
  · intro st rawurl depth oracle u g hp hl hf hpe hg
    have hct : HasContentType (Except.ok (str "application/json"))
        (str "application/json") = Except.ok true := rfl
    constructor
    · simp [CreateDomainHandler, hct, Crawl, hp, hl, hf, hpe, hg]
    · intro depth2 oracle2
      have h2 : (CreateDomainHandler st (Except.ok (str "application/json"))
          (Except.ok (rawurl, depth)) oracle).2 = (Crawl st rawurl depth oracle).2.1 := by
        simp [CreateDomainHandler, hct, Crawl, hp, hl, hf, hpe, hg]
      have h3 : ∃ w2, lookupWorker (Crawl st rawurl depth oracle).2.1.workers
          (urlToString u) = some w2 := by
        simp [Crawl, hp, hl, hf, hpe, hg, lookupWorker]
      obtain ⟨w2, hw2⟩ := h3
      rw [h2]
      revert hw2
      generalize (Crawl st rawurl depth oracle).2.1 = st3
      intro hw2
      simp [CreateDomainHandler, hct, Crawl, hp, hw2]

/-- Witness for C6: registering the example domain twice over the handler. -/
theorem crawl_duplicate_registration_witness :
    Crawl st1 exRaw 7 oracleOK = (some CrawlError.domainAlreadyRegistered, st1, {}) ∧
    (CreateDomainHandler initState (Except.ok (str "application/json"))
      (Except.ok (exRaw, 3)) oracleOK).1 = 202 ∧
    (CreateDomainHandler
      (CreateDomainHandler initState (Except.ok (str "application/json"))
        (Except.ok (exRaw, 3)) oracleOK).2
      (Except.ok (str "application/json"))
      (Except.ok (exRaw, 9)) oracleNoGroup).1 = 400 := by
  have h2 := crawl_duplicate_registration.2 initState exRaw 3 oracleOK exSeedURL agentAll
    (by decide) rfl rfl rfl rfl
  exact ⟨crawl_duplicate_registration.1 st1 exRaw 7 oracleOK exSeedURL exWorker1
    (by decide) rfl, h2.1, h2.2 9 oracleNoGroup⟩

/-- C7: when robots.txt downloads and parses but no group matches the user
agent, `Crawl` returns the last error observed, which is necessarily nil
there, and performs no registration: the state (registry and queue) is
unchanged, no detector is started and no seed is enqueued. -/
theorem crawl_no_group_returns_nil (st : SysState) (rawurl : Str) (depth : Int)
    (oracle : RobotsOracle) (u : GoURL) (hp : parseURL rawurl = some u)
    (hl : lookupWorker st.workers (urlToString u) = none)
    (hf : oracle.fetchErr = none) (hpe : oracle.parseErr = none)
    (hg : oracle.group = none) :
    Crawl st rawurl depth oracle = (none, st, { robotsFetched := true }) := by
  simp [Crawl, hp, hl, hf, hpe, hg]

/-- Witness for C7 on the example domain with a group-less oracle. -/
theorem crawl_no_group_returns_nil_witness :
    Crawl initState exRaw 4 oracleNoGroup = (none, initState, { robotsFetched := true }) :=
  crawl_no_group_returns_nil initState exRaw 4 oracleNoGroup exSeedURL
    (by decide) rfl rfl rfl rfl

/-! ## Admission outcome characterisations for the invariant -/

theorem enqueue_admitted_cases (c : Bool) (ws : List (Str × Worker)) (r : Resource)
    (h : (enqueue c ws r).1 = EnqueueResult.admitted) :
    ∃ u w, r.url = some u ∧
      lookupWorker ws (urlToString r.root) = some w ∧
      urlToString u ∉ w.tracker ∧ r.depth ≤ w.crawlDepth ∧
      (enqueue c ws r).2 =
        updateWorker ws (urlToString r.root)
          { w with tracker := urlToString u :: w.tracker } := by
  by_cases hc : c
  · simp [enqueue, hc] at h
  · cases hu : r.url with
    | none => simp [enqueue, hc, hu] at h
    | some u =>
      cases hl : lookupWorker ws (urlToString r.root) with
      | none => simp [enqueue, hc, hu, hl] at h
      | some w =>
        by_cases hv : urlToString u ∈ w.tracker
        · simp [enqueue, hc, hu, hl, Worker.visited, hv] at h
        · by_cases hd : w.crawlDepth < r.depth
          · simp [enqueue, hc, hu, hl, Worker.visited, hv, hd] at h
          · by_cases ha : w.agent u.path = false
            · simp [enqueue, hc, hu, hl, Worker.visited, hv, hd, ha] at h
            · refine ⟨u, w, rfl, rfl, hv, le_of_not_lt hd, ?_⟩
              simp [enqueue, hc, hu, hl, Worker.visited, hv, hd, ha]

theorem enqueue_lookup_rev (c : Bool) (ws : List (Str × Worker)) (r : Resource)
    (k : Str) (w2 : Worker) (h : lookupWorker (enqueue c ws r).2 k = some w2) :
    ∃ w, lookupWorker ws k = some w ∧ w2.crawlDepth = w.crawlDepth ∧
      w2.registeredAt = w.registeredAt ∧ w2.status = w.status ∧ w2.tree = w.tree ∧
      w2.lastUpdated = w.lastUpdated ∧ w.tracker ⊆ w2.tracker := by
  rcases enqueue_workers_cases c ws r with heq | ⟨u, w0, hu, hl, hv, heq⟩
  · rw [heq] at h
    exact ⟨w2, h, rfl, rfl, rfl, rfl, rfl, List.Subset.refl _⟩
  · rw [heq, lookup_update_cases] at h
    by_cases hk : urlToString r.root = k
    · subst hk
      rw [if_pos ⟨rfl, by rw [hl]; rfl⟩] at h
      obtain rfl := Option.some.inj h
      exact ⟨w0, hl, rfl, rfl, rfl, rfl, rfl, List.subset_cons_self _ _⟩
    · have hcond : ¬ (urlToString r.root = k ∧
          (lookupWorker ws (urlToString r.root)).isSome) := fun h2 => hk h2.1
      rw [if_neg hcond] at h
      exact ⟨w2, h, rfl, rfl, rfl, rfl, rfl, List.Subset.refl _⟩

/-! ## The inductive invariant -/

/-- Inductive invariant of the crawler system: the clock is non-negative and
dominates every registration instant; every queued resource has depth at
least 1 and a `URLString` matching its URL; every admitted resource belongs
to a registered worker, has depth within `[1, crawlDepth]`, and its URL
string is in that worker tracker; admitted entries of one worker have
pairwise distinct URL strings; a worker whose crawl depth is below 1 never
admits anything, so its tree, status and activity timestamp keep their
initial values. -/
structure SysInv (st : SysState) : Prop where
  time_nonneg : 0 ≤ st.time
  reg_nonneg : ∀ k w, lookupWorker st.workers k = some w → 0 ≤ w.registeredAt
  queue_ok : ∀ r ∈ st.queue, 1 ≤ r.depth ∧ ∀ u, r.url = some u → r.urlString = urlToString u
  admitted_ok : ∀ k r, (k, r) ∈ st.admitted →
    ∃ w, lookupWorker st.workers k = some w ∧ 1 ≤ r.depth ∧ r.depth ≤ w.crawlDepth ∧
      r.urlString ∈ w.tracker
  admitted_inj :
    st.admitted.Pairwise (fun a b => a.1 = b.1 → a.2.urlString ≠ b.2.urlString)
  inert_ok : ∀ k w, lookupWorker st.workers k = some w → w.crawlDepth < 1 →
    (∀ r, (k, r) ∉ st.admitted) ∧ w.tree = none ∧
      w.status = WorkerStatus.initialised ∧ w.lastUpdated = 0

theorem inv_init : SysInv initState := by
  constructor <;> simp [initState, lookupWorker]

theorem inv_update (st : SysState) (k0 : Str) (w0 nw : Worker)
    (hlk : lookupWorker st.workers k0 = some w0)
    (htrk : nw.tracker = w0.tracker) (hcd : nw.crawlDepth = w0.crawlDepth)
    (hreg : nw.registeredAt = w0.registeredAt)
    (hinert : w0.crawlDepth < 1 →
      nw.tree = w0.tree ∧ nw.status = w0.status ∧ nw.lastUpdated = w0.lastUpdated)
    (hi : SysInv st) :
    SysInv { st with workers := updateWorker st.workers k0 nw } := by
  have hsome : (lookupWorker st.workers k0).isSome := by rw [hlk]; rfl
  constructor
  · exact hi.time_nonneg
  · intro k w hlw
    rw [lookup_update_cases] at hlw
    by_cases hk : k0 = k
    · rw [if_pos ⟨hk, hsome⟩] at hlw
      obtain rfl := Option.some.inj hlw
      rw [hreg]; exact hi.reg_nonneg k0 w0 hlk
    · have hcond : ¬ (k0 = k ∧ (lookupWorker st.workers k0).isSome) := fun h2 => hk h2.1
      rw [if_neg hcond] at hlw
      exact hi.reg_nonneg k w hlw
  · exact hi.queue_ok
  · intro k r hm
    obtain ⟨w, hw, h1, h2, h3⟩ := hi.admitted_ok k r hm
    rw [lookup_update_cases]
    by_cases hk : k0 = k
    · subst hk
      obtain rfl : w0 = w := by rw [hlk] at hw; exact Option.some.inj hw
      rw [if_pos ⟨rfl, hsome⟩]
      exact ⟨nw, rfl, h1, by rw [hcd]; exact h2, by rw [htrk]; exact h3⟩
    · have hcond : ¬ (k0 = k ∧ (lookupWorker st.workers k0).isSome) := fun h2 => hk h2.1
      rw [if_neg hcond]
      exact ⟨w, hw, h1, h2, h3⟩
  · exact hi.admitted_inj
  · intro k w hlw hcdw
    rw [lookup_update_cases] at hlw
    by_cases hk : k0 = k
    · rw [if_pos ⟨hk, hsome⟩] at hlw
      obtain rfl := Option.some.inj hlw
      subst hk
      have hcd0 : w0.crawlDepth < 1 := by rw [← hcd]; exact hcdw
      obtain ⟨ht, hs, hl2⟩ := hinert hcd0
      obtain ⟨hno, ht0, hs0, hl0⟩ := hi.inert_ok k0 w0 hlk hcd0
      exact ⟨hno, by rw [ht]; exact ht0, by rw [hs]; exact hs0, by rw [hl2]; exact hl0⟩
    · have hcond : ¬ (k0 = k ∧ (lookupWorker st.workers k0).isSome) := fun h2 => hk h2.1
      rw [if_neg hcond] at hlw
      exact hi.inert_ok k w hlw hcdw

theorem inv_crawl (st : SysState) (rawurl : Str) (depth : Int) (oracle : RobotsOracle)
    (hi : SysInv st) : SysInv (Crawl st rawurl depth oracle).2.1 := by
  rcases Crawl_state_cases st rawurl depth oracle with heq | ⟨u, g, hp, hl, hg, heq⟩
  · rw [heq]; exact hi
  · rw [heq]
    constructor
    · exact hi.time_nonneg
    · intro k w hlw
      simp only [lookupWorker] at hlw
      by_cases hk : urlToString u = k
      · rw [if_pos hk] at hlw
        obtain rfl := Option.some.inj hlw
        exact hi.time_nonneg
      · rw [if_neg hk] at hlw
        exact hi.reg_nonneg k w hlw
    · intro r2 hr2
      rcases List.mem_append.mp hr2 with h2 | h2
      · exact hi.queue_ok r2 h2
      · have h3 := List.mem_singleton.mp h2
        subst h3
        refine ⟨le_refl _, ?_⟩
        intro u2 hu2
        have h4 : u = u2 := Option.some.inj hu2
        subst h4
        rfl
    · intro k r2 hm
      obtain ⟨w, hw, h1, h2, h3⟩ := hi.admitted_ok k r2 hm
      by_cases hk : urlToString u = k
      · rw [hk] at hl
        rw [hl] at hw
        cases hw
      · refine ⟨w, ?_, h1, h2, h3⟩
        simp only [lookupWorker, if_neg hk]
        exact hw
    · exact hi.admitted_inj
    · intro k w hlw hcdw
      simp only [lookupWorker] at hlw
      by_cases hk : urlToString u = k
      · rw [if_pos hk] at hlw
        obtain rfl := Option.some.inj hlw
        refine ⟨?_, rfl, rfl, rfl⟩
        intro r2 hm
        obtain ⟨w', hw', -, -, -⟩ := hi.admitted_ok k r2 hm
        rw [hk] at hl
        rw [hl] at hw'
        cases hw'
      · rw [if_neg hk] at hlw
        exact hi.inert_ok k w hlw hcdw

theorem inv_dispatch (st : SysState) (r : Resource) (rest : List Resource)
    (hq : st.queue = r :: rest) (hi : SysInv st) : SysInv (dispatchStep st r rest) := by
  have hrq : r ∈ st.queue := by rw [hq]; exact List.mem_cons_self _ _
  obtain ⟨hrd, hrstr⟩ := hi.queue_ok r hrq
  constructor
  · rw [dispatch_time]; exact hi.time_nonneg
  · intro k w hlw
    rw [dispatch_workers] at hlw
    obtain ⟨w0, hw0, -, hreg, -, -, -, -⟩ := enqueue_lookup_rev _ _ _ _ _ hlw
    rw [hreg]; exact hi.reg_nonneg k w0 hw0
  · intro r2 hr2
    rw [dispatch_queue] at hr2
    exact hi.queue_ok r2 (by rw [hq]; exact List.mem_cons_of_mem _ hr2)
  · intro k r2 hm
    rw [dispatch_admitted] at hm
    rw [dispatch_workers]
    by_cases hres : (enqueue st.queueClosed st.workers r).1 = EnqueueResult.admitted
    · rw [if_pos hres] at hm
      rcases List.mem_cons.mp hm with heq2 | hm2
      · rw [Prod.mk.injEq] at heq2
        obtain ⟨hk, hr2eq⟩ := heq2
        subst hk; subst hr2eq
        obtain ⟨u, w, hu, hl, hnv, hdep, heqw⟩ := enqueue_admitted_cases _ _ _ hres
        rw [heqw, lookup_update_cases]
        rw [if_pos ⟨rfl, by rw [hl]; rfl⟩]
        refine ⟨_, rfl, hrd, hdep, ?_⟩
        rw [hrstr u hu]
        exact List.mem_cons_self _ _
      · obtain ⟨w, hw, h1, h2, h3⟩ := hi.admitted_ok k r2 hm2
        obtain ⟨w2, hw2, hsub, hcd2, -, -, -, -, -⟩ :=
          enqueue_worker_view st.queueClosed st.workers r k w hw
        exact ⟨w2, hw2, h1, by rw [hcd2]; exact h2, hsub h3⟩
    · rw [if_neg hres] at hm
      obtain ⟨w, hw, h1, h2, h3⟩ := hi.admitted_ok k r2 hm
      obtain ⟨w2, hw2, hsub, hcd2, -, -, -, -, -⟩ :=
        enqueue_worker_view st.queueClosed st.workers r k w hw
      exact ⟨w2, hw2, h1, by rw [hcd2]; exact h2, hsub h3⟩
  · rw [dispatch_admitted]
    by_cases hres : (enqueue st.queueClosed st.workers r).1 = EnqueueResult.admitted
    · rw [if_pos hres]
      refine List.Pairwise.cons ?_ hi.admitted_inj
      intro b hb hkey
      obtain ⟨b1, b2⟩ := b
      obtain ⟨u, w, hu, hl, hnv, hdep, heqw⟩ := enqueue_admitted_cases _ _ _ hres
      obtain ⟨w', hw', -, -, htrk⟩ := hi.admitted_ok b1 b2 hb
      have hkey2 : urlToString r.root = b1 := hkey
      rw [← hkey2] at hw'
      obtain rfl : w = w' := by rw [hl] at hw'; exact Option.some.inj hw'
      intro hcontra
      have hc2 : r.urlString = b2.urlString := hcontra
      apply hnv
      rw [← hrstr u hu, hc2]
      exact htrk
    · rw [if_neg hres]
      exact hi.admitted_inj
  · intro k w2 hlw hcdw
    rw [dispatch_workers] at hlw
    obtain ⟨w, hw, hcdeq, hregeq, hsteq, htreq, hlueq, hsub⟩ :=
      enqueue_lookup_rev _ _ _ _ _ hlw
    have hcd0 : w.crawlDepth < 1 := by rw [← hcdeq]; exact hcdw
    obtain ⟨hnoadm, htree, hstat, hlu⟩ := hi.inert_ok k w hw hcd0
    refine ⟨?_, by rw [htreq]; exact htree, by rw [hsteq]; exact hstat,
      by rw [hlueq]; exact hlu⟩
    intro r2 hm
    rw [dispatch_admitted] at hm
    by_cases hres : (enqueue st.queueClosed st.workers r).1 = EnqueueResult.admitted
    · rw [if_pos hres] at hm
      rcases List.mem_cons.mp hm with heq2 | hm2
      · rw [Prod.mk.injEq] at heq2
        obtain ⟨hk, hr2eq⟩ := heq2
        obtain ⟨u, w', hu, hl, hnv, hdep, -⟩ := enqueue_admitted_cases _ _ _ hres
        rw [hk] at hw
        obtain rfl : w' = w := by rw [hl] at hw; exact Option.some.inj hw
        omega
      · exact hnoadm r2 hm2
    · rw [if_neg hres] at hm
      exact hnoadm r2 hm

theorem inv_fetchChild (st : SysState) (k : Str) (p : Resource) (pu absolute : GoURL)
    (hmem : (k, p) ∈ st.admitted) (hi : SysInv st) :
    SysInv { st with queue := st.queue ++ [makeChild p pu absolute st.time] } := by
  obtain ⟨w, hw, hpd, -, -⟩ := hi.admitted_ok k p hmem
  constructor
  · exact hi.time_nonneg
  · exact hi.reg_nonneg
  · intro r2 hr2
    rcases List.mem_append.mp hr2 with h2 | h2
    · exact hi.queue_ok r2 h2
    · have h3 := List.mem_singleton.mp h2
      subst h3
      refine ⟨?_, ?_⟩
      · show 1 ≤ p.depth + 1
        omega
      · intro u hu
        have h4 : absolute = u := Option.some.inj hu
        subst h4
        rfl
  · exact hi.admitted_ok
  · exact hi.admitted_inj
  · exact hi.inert_ok

theorem inv_insert (st : SysState) (k : Str) (p : Resource) (w : Worker)
    (hmem : (k, p) ∈ st.admitted) (hlk : lookupWorker st.workers k = some w)
    (hi : SysInv st) :
    SysInv { st with workers := updateWorker st.workers k (appendToTree w p st.time) } := by
  obtain ⟨hf1, hf2, hf3, hf4⟩ := appendToTree_fields w p st.time
  refine inv_update st k w _ hlk hf1 hf2 hf4 ?_ hi
  intro hcd0
  obtain ⟨w', hw', h1, h2, -⟩ := hi.admitted_ok k p hmem
  obtain rfl : w = w' := by rw [hlk] at hw'; exact Option.some.inj hw'
  exact absurd hcd0 (by omega)

theorem inv_mark (st : SysState) (k : Str) (p : Resource) (w : Worker)
    (hmem : (k, p) ∈ st.admitted) (hlk : lookupWorker st.workers k = some w)
    (hi : SysInv st) :
    SysInv { st with workers := updateWorker st.workers k (markInProgress w) } := by
  obtain ⟨hf1, hf2, hf3, hf4, hf5⟩ := markInProgress_fields w
  refine inv_update st k w _ hlk hf1 hf2 hf5 ?_ hi
  intro hcd0
  obtain ⟨w', hw', h1, h2, -⟩ := hi.admitted_ok k p hmem
  obtain rfl : w = w' := by rw [hlk] at hw'; exact Option.some.inj hw'
  exact absurd hcd0 (by omega)

theorem inv_detector (st : SysState) (k : Str) (w : Worker)
    (hlk : lookupWorker st.workers k = some w)
    (htime : w.registeredAt + quiescenceDelay ≤ st.time) (hi : SysInv st) :
    SysInv { st with workers := updateWorker st.workers k (detectorTick w st.time) } := by
  obtain ⟨hf1, hf2, hf3, hf4, hf5⟩ := detectorTick_fields w st.time
  refine inv_update st k w _ hlk hf1 hf2 hf5 ?_ hi
  intro hcd0
  obtain ⟨-, -, -, hl0⟩ := hi.inert_ok k w hlk hcd0
  have hreg0 := hi.reg_nonneg k w hlk
  have hnofire : ¬ st.time < w.lastUpdated + quiescenceDelay := by
    rw [hl0]
    simp only [quiescenceDelay] at htime ⊢
    omega
  have hsame : detectorTick w st.time = w := by
    unfold detectorTick
    rw [if_neg hnofire]
  rw [hsame]
  exact ⟨rfl, rfl, rfl⟩

theorem inv_tick (st : SysState) (d : Int) (hd : 0 ≤ d) (hi : SysInv st) :
    SysInv { st with time := st.time + d } := by
  constructor
  · show 0 ≤ st.time + d
    have := hi.time_nonneg
    omega
  · exact hi.reg_nonneg
  · exact hi.queue_ok
  · exact hi.admitted_ok
  · exact hi.admitted_inj
  · exact hi.inert_ok

theorem inv_close (st : SysState) (hi : SysInv st) :
    SysInv { st with queueClosed := true } := by
  constructor
  · exact hi.time_nonneg
  · exact hi.reg_nonneg
  · exact hi.queue_ok
  · exact hi.admitted_ok
  · exact hi.admitted_inj
  · exact hi.inert_ok

theorem inv_step {st st2 : SysState} (hs : Step st st2) (hi : SysInv st) : SysInv st2 := by
  cases hs with
  | crawl rawurl depth oracle => exact inv_crawl st rawurl depth oracle hi
  | dispatch r rest hq => exact inv_dispatch st r rest hq hi
  | fetchChild k p pu absolute link hmem hpu hnorm hcl =>
    exact inv_fetchChild st k p pu absolute hmem hi
  | insert k p w hmem hlk => exact inv_insert st k p w hmem hlk hi
  | mark k p w hmem hlk => exact inv_mark st k p w hmem hlk hi
  | detector k w hlk htime => exact inv_detector st k w hlk htime hi
  | tick d hd => exact inv_tick st d hd hi
  | close => exact inv_close st hi

/-- Every reachable crawler state satisfies the inductive invariant. -/
theorem reachable_inv {st : SysState} (h : Reachable st) : SysInv st := by
  induction h with
  | refl => exact inv_init
  | tail h1 h2 ih => exact inv_step h2 ih

/-! ## Concrete reachable states -/

theorem reach_st1 : Reachable st1 :=
  Relation.ReflTransGen.single (Step.crawl initState exRaw 3 oracleOK)

theorem reach_st2 : Reachable st2 :=
  Relation.ReflTransGen.tail reach_st1 (Step.dispatch st1 exSeed [] (by decide))

theorem reach_st3 : Reachable st3 :=
  Relation.ReflTransGen.tail reach_st2
    (Step.fetchChild st2 exKey exSeed exSeedURL exChildURL (str "/a")
      (by decide) rfl (by decide) (by decide))

theorem reach_st4 : Reachable st4 :=
  Relation.ReflTransGen.tail reach_st3 (Step.dispatch st3 exChild [] (by decide))

theorem reach_st5 : Reachable st5 :=
  Relation.ReflTransGen.single (Step.crawl initState exRaw (-1) oracleOK)

/-- C2: every resource admitted to fetch has depth at least 1 and at most the
owning worker crawl depth; the seed is enqueued at depth 1, every child at
its parent depth plus one, and the admission gate refuses any resource
deeper than the worker crawl depth. -/
theorem admitted_depth_bounds :
    (∀ st, Reachable st → ∀ k r, (k, r) ∈ st.admitted →
      1 ≤ r.depth ∧ ∃ w, lookupWorker st.workers k = some w ∧ r.depth ≤ w.crawlDepth) ∧
    (∀ st rawurl depth oracle seed,
      (Crawl st rawurl depth oracle).2.2.seedEnqueued = some seed → seed.depth = 1) ∧
    (∀ p pu absolute now, (makeChild p pu absolute now).depth = p.depth + 1) ∧
    (∀ ws r u w, r.url = some u → lookupWorker ws (urlToString r.root) = some w →
      w.crawlDepth < r.depth → (enqueue false ws r).1 ≠ EnqueueResult.admitted) := by
  refine ⟨?_, ?_, fun p pu absolute now => rfl, ?_⟩
  · intro st hr k r hm
    obtain ⟨w, hw, h1, h2, -⟩ := (reachable_inv hr).admitted_ok k r hm
    exact ⟨h1, w, hw, h2⟩
  · intro st rawurl depth oracle seed hs
    cases hp : parseURL rawurl with
    | none => simp [Crawl, hp] at hs
    | some u =>
      cases hl : lookupWorker st.workers (urlToString u) with
      | some w => simp [Crawl, hp, hl] at hs
      | none =>
        cases hf : oracle.fetchErr with
        | some e => simp [Crawl, hp, hl, hf] at hs
        | none =>
          cases hpe : oracle.parseErr with
          | some e => simp [Crawl, hp, hl, hf, hpe] at hs
          | none =>
            cases hg : oracle.group with
            | none => simp [Crawl, hp, hl, hf, hpe, hg] at hs
            | some g =>
              simp only [Crawl, hp, hl, hf, hpe, hg] at hs
              rw [← Option.some.inj hs]
  · intro ws r u w hu hl hd
    by_cases hv : urlToString u ∈ w.tracker
    · simp [enqueue, hu, hl, Worker.visited, hv]
    · simp [enqueue, hu, hl, Worker.visited, hv, hd]

/-- Witness for C2 on the example crawl at depth 3. -/
theorem admitted_depth_bounds_witness :
    (1 ≤ exSeed.depth ∧ ∃ w, lookupWorker st2.workers exKey = some w ∧
      exSeed.depth ≤ w.crawlDepth) ∧
    exSeed.depth = 1 ∧
    exChild.depth = exSeed.depth + 1 ∧
    (enqueue false denyWs { exSeed with depth := 9 }).1 ≠ EnqueueResult.admitted := by
  refine ⟨admitted_depth_bounds.1 st2 reach_st2 exKey exSeed (by decide),
          admitted_depth_bounds.2.1 initState exRaw 3 oracleOK exSeed (by decide),
          admitted_depth_bounds.2.2.1 exSeed exSeedURL exChildURL 0,
          admitted_depth_bounds.2.2.2 denyWs { exSeed with depth := 9 } exSeedURL
            exWorkerDeny rfl rfl (by decide)⟩

/-- C3: no two distinct resources admitted to fetch under one worker share a
URL string (the tracker check-and-insert admits each URL string at most
once per worker). -/
theorem admitted_urlString_unique (st : SysState) (h : Reachable st) (k : Str)
    (r1 r2 : Resource) (h1 : (k, r1) ∈ st.admitted) (h2 : (k, r2) ∈ st.admitted)
    (hne : r1 ≠ r2) : r1.urlString ≠ r2.urlString := by
  have hp := (reachable_inv h).admitted_inj
  have hsymm : Symmetric (fun a b : Str × Resource =>
      a.1 = b.1 → a.2.urlString ≠ b.2.urlString) := by
    intro a b hab hba hs
    exact hab hba.symm hs.symm
  have hpairne : ((k, r1) : Str × Resource) ≠ (k, r2) := by
    intro hpair
    exact hne (congrArg Prod.snd hpair)
  exact List.Pairwise.forall hsymm hp h1 h2 hpairne rfl

/-- Witness for C3: the admitted seed and child of the example crawl have
distinct URL strings. -/
theorem admitted_urlString_unique_witness : exSeed.urlString ≠ exChild.urlString :=
  admitted_urlString_unique st4 reach_st4 exKey exSeed exChild (by decide) (by decide)
    (by decide)

/-- C10: a negative depth bypasses the default substitution (which fires only
at exactly 0): the worker is registered with the negative crawl depth, status
initialised and a null tree, `Crawl` still returns nil, the seed enters the
queue at depth 1, and its admission stops at the depth gate; moreover in
every reachable state a worker whose crawl depth is below 1 never has a
resource admitted to fetch, its tree stays null and its status stays
initialised. -/
theorem negative_depth_worker_inert :
    (∀ st rawurl depth oracle u g, depth < 0 → parseURL rawurl = some u →
      lookupWorker st.workers (urlToString u) = none →
      oracle.fetchErr = none → oracle.parseErr = none → oracle.group = some g →
      st.queueClosed = false →
      (Crawl st rawurl depth oracle).1 = none ∧
      (∃ w, lookupWorker (Crawl st rawurl depth oracle).2.1.workers (urlToString u) =
          some w ∧ w.crawlDepth = depth ∧ w.status = WorkerStatus.initialised ∧
          w.tree = none) ∧
      (∃ seed, (Crawl st rawurl depth oracle).2.2.seedEnqueued = some seed ∧
        seed.depth = 1 ∧ seed ∈ (Crawl st rawurl depth oracle).2.1.queue ∧
        (enqueue (Crawl st rawurl depth oracle).2.1.queueClosed
          (Crawl st rawurl depth oracle).2.1.workers seed).1 =
            EnqueueResult.droppedDepth)) ∧
    (∀ st, Reachable st → ∀ k w, lookupWorker st.workers k = some w →
      w.crawlDepth < 1 →
      (∀ r, (k, r) ∉ st.admitted) ∧ w.tree = none ∧
        w.status = WorkerStatus.initialised) := by
  constructor
  · intro st rawurl depth oracle u g hneg hp hl hf hpe hg hqc
    have hd0 : (if depth = 0 then DefaultMaxCrawlDepth else depth) = depth := by
      rw [if_neg (by omega)]
    have hd1 : depth < (1 : Int) := by omega
    refine ⟨by simp [Crawl, hp, hl, hf, hpe, hg], ?_, ?_⟩
    · refine ⟨{ seed := u, crawlDepth := depth, agent := g, tracker := []
                status := .initialised, tree := none, lastUpdated := 0
                registeredAt := st.time }, ?_, rfl, rfl, rfl⟩
      simp [Crawl, hp, hl, hf, hpe, hg, hd0, lookupWorker]
    · refine ⟨{ url := some u, urlString := urlToString u, root := u
                parent := [], depth := 1 }, ?_, rfl, ?_, ?_⟩
      · simp [Crawl, hp, hl, hf, hpe, hg, hd0]
      · simp [Crawl, hp, hl, hf, hpe, hg, hd0]
      · simp only [Crawl, hp, hl, hf, hpe, hg, hd0]
        rw [hqc]
        simp [enqueue, lookupWorker, Worker.visited, hd1]
  · intro st hr k w hlk hcd
    obtain ⟨hno, ht, hs, -⟩ := (reachable_inv hr).inert_ok k w hlk hcd
    exact ⟨hno, ht, hs⟩

/-- Witness for C10: registering the example domain at depth -1. -/
theorem negative_depth_worker_inert_witness :
    (Crawl initState exRaw (-1) oracleOK).1 = none ∧
    (∀ r, (exKey, r) ∉ st5.admitted) ∧ exWorkerNeg.tree = none ∧
    exWorkerNeg.status = WorkerStatus.initialised := by
  have h1 := negative_depth_worker_inert.1 initState exRaw (-1) oracleOK exSeedURL agentAll
    (by decide) (by decide) rfl rfl rfl rfl rfl
  have h2 := negative_depth_worker_inert.2 st5 reach_st5 exKey exWorkerNeg rfl (by decide)
  exact ⟨h1.1, h2.1, h2.2.1, h2.2.2⟩

/-! ## Round trip of normalisation (C9) -/

theorem takeWhile_split (p : Char → Bool) (l1 l2 : Str)
    (h1 : ∀ c ∈ l1, p c = true)
    (h2 : l2 = [] ∨ ∃ c, l2.head? = some c ∧ p c = false) :
    (l1 ++ l2).takeWhile p = l1 ∧ (l1 ++ l2).dropWhile p = l2 := by
  induction l1 with
  | nil =>
    simp only [List.nil_append]
    rcases h2 with h | ⟨c, hc, hpc⟩
    · subst h; exact ⟨rfl, rfl⟩
    · cases l2 with
      | nil => cases hc
      | cons a t =>
        obtain rfl : a = c := by simpa using hc
        constructor <;> simp [List.takeWhile, List.dropWhile, hpc]
  | cons a t ih =>
    have hpa : p a = true := h1 a (List.mem_cons_self _ _)
    have iht := ih (fun c hc => h1 c (List.mem_cons_of_mem _ hc))
    constructor
    · show ((a :: (t ++ l2)).takeWhile p) = a :: t
      simp [List.takeWhile, hpa, iht.1]
    · show ((a :: (t ++ l2)).dropWhile p) = l2
      simp [List.dropWhile, hpa, iht.2]

theorem parseURL_eq (s : Str) (scheme rest2 : Str)
    (hbad : s.any badChar = false) (hhead : s.head? ≠ some ':')
    (hsch : splitScheme s = some (scheme, '/' :: '/' :: rest2)) :
    parseURL s = some { scheme := scheme
                        host := rest2.takeWhile (fun c => c ≠ '/')
                        path := rest2.dropWhile (fun c => c ≠ '/') } := by
  unfold parseURL
  rw [hsch]
  simp [hbad, hhead]

/-- C9 as amended: normalising the string form of an http(s) base URL
against that same base returns the base unchanged, provided the base is well
formed — its host and path characters are legal URL characters, the host
contains no slash, the path is empty or anchored at `/`, and the path is a
fixed point of dot-segment removal (`resolvePath path "" = path`).  The last
restriction is forced: `ResolveReference` always cleans the path, so a base
whose path holds a dot segment comes back with the cleaned path instead
(see the counterexample below). -/
theorem normaliseURL_roundtrip (base : GoURL)
    (hs : base.scheme = httpScheme ∨ base.scheme = httpsScheme)
    (hhostc : ∀ c ∈ base.host, badChar c = false ∧ c ≠ '/')
    (hpathc : ∀ c ∈ base.path, badChar c = false)
    (hpath : base.path = [] ∨ base.path.head? = some '/')
    (hclean : resolvePath base.path [] = base.path) :
    normaliseURL (urlToString base) base = some base := by
  have hsne : base.scheme ≠ [] := by
    rcases hs with h | h <;> rw [h] <;> decide
  have hstr2 : urlToString base =
      base.scheme ++ ':' :: '/' :: '/' :: (base.host ++ base.path) := by
    unfold urlToString
    rw [if_neg hsne]
  have hbad : (urlToString base).any badChar = false := by
    rw [hstr2]
    have hassoc : base.scheme ++ ':' :: '/' :: '/' :: (base.host ++ base.path) =
        base.scheme ++ (([':', '/', '/'] : Str) ++ (base.host ++ base.path)) := rfl
    rw [hassoc, List.any_append, List.any_append, List.any_append]
    have h1 : base.scheme.any badChar = false := by
      rcases hs with h | h <;> rw [h] <;> decide
    have h2 : ([':', '/', '/'] : Str).any badChar = false := by decide
    have h3 : base.host.any badChar = false := by
      rw [List.any_eq_false]
      intro c hc
      simp [(hhostc c hc).1]
    have h4 : base.path.any badChar = false := by
      rw [List.any_eq_false]
      intro c hc
      simp [hpathc c hc]
    rw [h1, h2, h3, h4]
    rfl
  have hhead : (urlToString base).head? ≠ some ':' := by
    have hh : (urlToString base).head? = some 'h' := by
      rw [hstr2]
      rcases hs with h | h <;> rw [h] <;> rfl
    rw [hh]
    decide
  have hsch : splitScheme (urlToString base) =
      some (base.scheme, '/' :: '/' :: (base.host ++ base.path)) := by
    rw [hstr2]
    rcases hs with h | h <;> rw [h] <;> rfl
  have htake := takeWhile_split (fun c => c ≠ '/') base.host base.path
    (fun c hc => decide_eq_true (hhostc c hc).2)
    (by
      rcases hpath with h | h
      · exact Or.inl h
      · exact Or.inr ⟨'/', h, by decide⟩)
  have hparse : parseURL (urlToString base) = some base := by
    rw [parseURL_eq (urlToString base) base.scheme (base.host ++ base.path) hbad hhead hsch]
    rw [htake.1, htake.2]
  have hres : resolveReference base base = base := by
    unfold resolveReference
    rw [if_pos (Or.inl hsne)]
    rw [ite_self, hclean]
  have hhostcond : ¬ (base.host ≠ [] ∧ base.host ≠ base.host) := by
    intro h
    exact h.2 rfl
  have hschemecond : ¬ (base.scheme ≠ httpScheme ∧ base.scheme ≠ httpsScheme) := by
    rcases hs with h | h <;> simp [h]
  simp only [normaliseURL, hparse, if_neg hhostcond, hres]
  rw [if_neg hschemecond]

/-- Witness for C9 on a concrete https base URL. -/
theorem normaliseURL_roundtrip_witness :
    normaliseURL (urlToString ⟨str "https", str "example.com", str "/sub"⟩)
      ⟨str "https", str "example.com", str "/sub"⟩ =
      some ⟨str "https", str "example.com", str "/sub"⟩ :=
  normaliseURL_roundtrip ⟨str "https", str "example.com", str "/sub"⟩ (Or.inr rfl)
    (by decide) (by decide) (Or.inr rfl) (by decide)

/-- Counterexample for C9 as stated over every http(s) base: for the http
base `http://e.com/a/./b`, normalising its own string form returns the URL
with the dot segment removed from the path, `http://e.com/a/b`, which is not
equal to the base — `ResolveReference` always runs `resolvePath`, so a path
containing dot segments does not round-trip. -/
theorem normaliseURL_roundtrip_counterexample :
    (⟨str "http", str "e.com", str "/a/./b"⟩ : GoURL).scheme = httpScheme ∧
    normaliseURL (urlToString ⟨str "http", str "e.com", str "/a/./b"⟩)
        ⟨str "http", str "e.com", str "/a/./b"⟩ =
      some ⟨str "http", str "e.com", str "/a/b"⟩ ∧
    normaliseURL (urlToString ⟨str "http", str "e.com", str "/a/./b"⟩)
        ⟨str "http", str "e.com", str "/a/./b"⟩ ≠
      some ⟨str "http", str "e.com", str "/a/./b"⟩ := by
  exact ⟨rfl, by decide, by decide⟩
